import Mathlib

/-!
Verification development for the authentication core of the house-finder
repository (package `internal/auth` plus the auth-related web handlers).

The Go code is shallowly embedded: SQLite tables become lists of rows,
timestamps become integers, `crypto/sha256` (an external library) becomes an
explicit hash-function parameter, and each store method becomes a pure
function from the old table state to the result and the new table state.
-/

namespace HouseFinder

/-! ## Models of the Go `strings` functions used by the auth core.

Strings are treated as their character sequences (`String.toList`), which
matches Go's byte-level operations on the ASCII data handled here. -/

/-- Model of Go `strings.HasPrefix`. -/
def Strings.hasPrefix (s p : String) : Bool :=
  p.toList.isPrefixOf s.toList

/-- Model of Go `strings.TrimPrefix`: drops `p` from the front of `s` when it
is a prefix, otherwise returns `s` unchanged. -/
def Strings.trimPrefix (s p : String) : String :=
  if Strings.hasPrefix s p then String.mk (s.toList.drop p.toList.length) else s

/-- Model of Go `strings.ToLower` (ASCII case folding via `Char.toLower`). -/
def Strings.toLower (s : String) : String :=
  String.mk (s.toList.map Char.toLower)

/-- Model of Go `strings.TrimSpace`: removes leading and trailing whitespace. -/
def Strings.trimSpace (s : String) : String :=
  String.mk (((s.toList.dropWhile Char.isWhitespace).reverse.dropWhile
    Char.isWhitespace).reverse)

/-- Model of Go slicing `s[:n]` on ASCII strings. -/
def Strings.take (s : String) (n : Nat) : String :=
  String.mk (s.toList.take n)

/-! ## TokenStore (`internal/auth/token.go`)

Table `auth_tokens (token, email, expires_at, used)`; timestamps are `Int`. -/

/-- `tokenExpiry = 15 * time.Minute`, in seconds. -/
def tokenExpiry : Int := 15 * 60

namespace Token

/-- A row of the `auth_tokens` table. -/
structure Row where
  token : String
  email : String
  expiresAt : Int
  used : Bool
  deriving DecidableEq, Repr

/-- The `WHERE` clause of the conditional update in `TokenStore.Validate`:
`token = ? AND used = 0 AND expires_at > now`. -/
def updMatch (tok : String) (now : Int) (r : Row) : Bool :=
  r.token == tok && r.used == false && decide (now < r.expiresAt)

/-- `TokenStore.Create` (`token.go:25`): inserts a fresh row for `email` with a
15-minute expiry and `used = 0`. The generated random token is the `newTok`
argument. -/
def create (db : List Row) (email newTok : String) (now : Int) : List Row :=
  db ++ [{ token := newTok, email := email, expiresAt := now + tokenExpiry,
           used := false }]

/-- The effect of the conditional update `UPDATE auth_tokens SET used = 1
WHERE token = ? AND used = 0 AND expires_at > ?` on the table. -/
def markUsed (db : List Row) (tok : String) (now : Int) : List Row :=
  db.map (fun r => if updMatch tok now r then { r with used := true } else r)

/-- `TokenStore.Validate` (`token.go:45`): one conditional update
`UPDATE auth_tokens SET used = 1 WHERE token = ? AND used = 0 AND
expires_at > ?`; if no row was affected (`db.countP (updMatch tok now)`) the
call fails, otherwise the email is read back with `SELECT email FROM
auth_tokens WHERE token = ?`. Returns the validated email (or `none` on
failure) together with the updated table. -/
def validate (db : List Row) (tok : String) (now : Int) :
    Option String × List Row :=
  if db.countP (updMatch tok now) = 0 then (none, markUsed db tok now)
  else
    match (markUsed db tok now).find? (fun r => r.token == tok) with
    | some r => (some r.email, markUsed db tok now)
    | none => (none, markUsed db tok now)

/-- `TokenStore.Cleanup` (`token.go:77`): `DELETE FROM auth_tokens WHERE
expires_at < ?`. -/
def cleanup (db : List Row) (now : Int) : List Row :=
  db.filter (fun r => !(decide (r.expiresAt < now)))

end Token

/-! ## SessionStore (`internal/auth/session.go`)

Table `sessions (id, email, expires_at)`. A request's `hf_session` cookie is
modelled as an `Option String`. -/

namespace Session

/-- A row of the `sessions` table. -/
structure Row where
  id : String
  email : String
  expiresAt : Int
  deriving DecidableEq, Repr

/-- `SessionStore.Validate` (`session.go:56`): reads the cookie, looks the
session up by id, deletes it and fails when `time.Now().After(expiresAt)`,
otherwise returns the bound email. Returns the result together with the
(possibly lazily cleaned) table. -/
def validate (db : List Row) (cookie : Option String) (now : Int) :
    Option String × List Row :=
  match cookie with
  | none => (none, db)
  | some cv =>
    match db.find? (fun s => s.id == cv) with
    | none => (none, db)
    | some s =>
      if s.expiresAt < now then (none, db.filter (fun x => !(x.id == cv)))
      else (some s.email, db)

end Session

/-! ## APIKeyStore (current revision, `src/unnamed/part_005`)

Table `api_keys (id, name, key_prefix, key_hash, email, created_at,
last_used_at)`; `created_at` is a DB default and not modelled. The SHA-256 hex
digest (`hashAPIKey`, backed by `crypto/sha256`) is an explicit function
parameter `hash`. -/

namespace APIKey

/-- A row of the `api_keys` table. -/
structure Row where
  id : Int
  name : String
  keyPrefix : String
  keyHash : String
  email : String
  lastUsedAt : Option Int
  deriving DecidableEq, Repr

/-- `APIKeyStore.Create` (`part_005:35`): for a freshly generated raw key
`raw`, stores only `raw[:8]` as the display prefix and `hash raw` as the key
hash, together with the name and owner email; the raw key itself is returned
to the caller and never stored. `newId` models `LastInsertId`. -/
def create (hash : String → String) (db : List Row) (name email raw : String)
    (newId : Int) : Row × List Row :=
  let row : Row := { id := newId, name := name, keyPrefix := Strings.take raw 8,
                     keyHash := hash raw, email := email, lastUsedAt := none }
  (row, db ++ [row])

/-- `APIKeyStore.Validate` (`part_005:112`): hashes the presented key, selects
by `key_hash`; on a miss returns the empty owner, on a hit updates
`last_used_at` and returns the owner email. -/
def validate (hash : String → String) (db : List Row) (rawKey : String)
    (now : Int) : String × List Row :=
  let h := hash rawKey
  match db.find? (fun r => r.keyHash == h) with
  | none => ("", db)
  | some r =>
    (r.email, db.map (fun x => if x.keyHash == h then { x with lastUsedAt := some now } else x))

/-- The error of an owner-scoped delete; a non-owner gets `notFound`, never a
`Forbidden`-style error. -/
inductive DeleteError where
  | notFound
  deriving DecidableEq, Repr

/-- Modelled from the spec: the owner-scoped `APIKeyStore.Delete(id, owner)`
of the current revision is missing from `src/` (only `apikey_test.go`
exercises it; `apikey.go` and `part_005` are stale revisions whose `Delete`
takes no owner). Per spec §4.3 deletion is owner-scoped: the row is removed
only when both the id and the owner address match, and otherwise the call
fails with `NotFound`. -/
def delete (db : List Row) (id : Int) (owner : String) :
    Except DeleteError (List Row) :=
  if db.any (fun r => r.id == id && r.email == owner) then
    Except.ok (db.filter (fun r => !(r.id == id && r.email == owner)))
  else
    Except.error DeleteError.notFound

/-- Modelled from the spec: the owner-scoped `APIKeyStore.List(owner)` of the
current revision is missing from `src/` (only `apikey_test.go` exercises it).
Per spec §4.3 listing is owner-scoped. -/
def list (db : List Row) (owner : String) : List Row :=
  db.filter (fun r => r.email == owner)

end APIKey

/-! ## UserStore (`internal/auth/users.go`) -/

namespace Users

/-- `UserStore.IsAuthorized` (`users.go:33`): lowers the email, compares with
the (already lowered) admin address, else counts `authorized_users` rows with
`LOWER(email) = ?`. `table` is the list of stored `authorized_users.email`
values. -/
def isAuthorized (admin : String) (table : List String) (email : String) : Bool :=
  let e := Strings.toLower email
  e == admin || 0 < table.countP (fun x => Strings.toLower x == e)

end Users

/-! ## Rate limiter

Constants `rateLimitWindow = 1 * time.Minute` (in seconds) and
`rateLimitMaxFail = 10`, shared by both revisions of the middleware. The
per-IP map `attempts` is modelled as a function from source address to the
list of recorded failure timestamps (Go's map default, the nil slice, is the
function's value on untouched sources). -/

def rateLimitWindow : Int := 60

def rateLimitMaxFail : Nat := 10

/-- `rateLimiter.isLimited` (current revision, mailer.go document lines
148-163): prunes the source's entries older than the window, writes the
pruned list back, and reports whether the remaining count has reached the
threshold (`len(valid) >= rateLimitMaxFail`). Returns the flag and the pruned
list. -/
def isLimited (attempts : List Int) (now : Int) : Bool × List Int :=
  let cutoff := now - rateLimitWindow
  let valid := attempts.filter (fun t => decide (cutoff < t))
  (rateLimitMaxFail ≤ valid.length, valid)

/-- `rateLimiter.recordFailure` (current revision, mailer.go document lines
166-171): appends the current timestamp to the source's list. -/
def recordFailure (attempts : List Int) (now : Int) : List Int :=
  attempts ++ [now]

namespace Legacy

/-- `rateLimiter.recordFailure` (`internal/auth/middleware.go:51`): prunes the
source's entries older than the window, appends the current timestamp, stores
the result, and returns whether the post-append count exceeds the threshold
(`len(valid) > rateLimitMaxFail`). -/
def recordFailure (attempts : List Int) (now : Int) : Bool × List Int :=
  let cutoff := now - rateLimitWindow
  let valid := (attempts.filter (fun t => decide (cutoff < t))) ++ [now]
  (rateLimitMaxFail < valid.length, valid)

end Legacy

/-! ## Gatekeeper middleware (current revision, mailer.go document lines
93-255)

A request carries the URL path, the `Authorization` header (Go's
`Header.Get` yields `""` when absent), the optional `hf_session` cookie
value, and the remote address. The middleware's observable outcome is either
forwarding to the inner handler (with the context email set by
`WithUserEmail`, or unset), or a rejection. -/

/-- The inbound request data consulted by the middleware. -/
structure Request where
  path : String
  authz : String
  cookie : Option String
  remoteAddr : String
  deriving DecidableEq, Repr

/-- The middleware's per-request outcome. `next ctx` forwards to the inner
handler with `ctx` as the context email set via `WithUserEmail` (`none` when
the middleware forwarded the request unchanged). -/
inductive Outcome where
  | next (ctxEmail : Option String)
  | unauthorized
  | tooManyRequests
  | redirectLogin
  deriving DecidableEq, Repr

/-- `UserEmailFromContext` (mailer.go document lines 103-106): the type
assertion on a missing context value yields the empty string. -/
def UserEmailFromContext (ctx : Option String) : String :=
  ctx.getD ""

/-- `isPublicPath` (current revision, mailer.go document lines 231-250). -/
def isPublicPath (path : String) : Bool :=
  path == "/health" ||
  path == "/login" || path == "/auth/login" || path == "/auth/verify" ||
  path == "/auth/logout" ||
  Strings.hasPrefix path "/static/" ||
  path == "/passkey/login/begin" || path == "/passkey/login/finish" ||
  path == "/cli/auth" || path == "/cli/auth/verify" || path == "/cli/auth/complete"

/-- `isAPIKeyManagementPath` (current revision, mailer.go document lines
252-255): the API-key and user administration endpoints. -/
def isAPIKeyManagementPath (path : String) : Bool :=
  path == "/api/keys" || Strings.hasPrefix path "/api/keys/" ||
  path == "/api/users" || Strings.hasPrefix path "/api/users/"

/-- The mutable state the middleware touches: the `sessions` and `api_keys`
tables and the package-level rate limiter's per-source map. -/
structure St where
  sessions : List Session.Row
  apiKeys : List APIKey.Row
  limiter : String → List Int

/-- Point update of the limiter map (`rl.attempts[ip] = v`). -/
def setLimiter (m : String → List Int) (ip : String) (v : List Int) :
    String → List Int :=
  fun s => if s == ip then v else m s

/-- `RequireAPIKey` (current revision, mailer.go document lines 177-229):
non-`/api/` paths pass through; management paths demand a valid session (the
validated email is discarded); otherwise a missing/non-`Bearer` header falls
back to session auth (attaching the email on success), and a `Bearer` header
is checked against the rate limiter and then the `APIKeyStore`, recording a
limiter failure exactly when the key is invalid. -/
def RequireAPIKey (hash : String → String) (st : St) (r : Request)
    (now : Int) : Outcome × St :=
  if !(Strings.hasPrefix r.path "/api/") then (Outcome.next none, st)
  else if isAPIKeyManagementPath r.path then
    match Session.validate st.sessions r.cookie now with
    | (none, ss) => (Outcome.unauthorized, { st with sessions := ss })
    | (some _, ss) => (Outcome.next none, { st with sessions := ss })
  else
    let ip := r.remoteAddr
    if r.authz == "" || !(Strings.hasPrefix r.authz "Bearer ") then
      match Session.validate st.sessions r.cookie now with
      | (some email, ss) => (Outcome.next (some email), { st with sessions := ss })
      | (none, ss) => (Outcome.unauthorized, { st with sessions := ss })
    else
      let key := Strings.trimPrefix r.authz "Bearer "
      let lp := isLimited (st.limiter ip) now
      let st1 := { st with limiter := setLimiter st.limiter ip lp.2 }
      if lp.1 then (Outcome.tooManyRequests, st1)
      else
        let ev := APIKey.validate hash st1.apiKeys key now
        let st2 := { st1 with apiKeys := ev.2 }
        if ev.1 == "" then
          (Outcome.unauthorized,
           { st2 with limiter := setLimiter st2.limiter ip (recordFailure (st2.limiter ip) now) })
        else (Outcome.next (some ev.1), st2)

/-- `RequireAuth` (current revision, mailer.go document lines 111-131):
public and `/api/` paths pass through; any other path demands a valid
session, redirecting to the login page otherwise. The validated email is
discarded (nothing is attached to the context). -/
def RequireAuth (sessions : List Session.Row) (r : Request) (now : Int) :
    Outcome × List Session.Row :=
  if isPublicPath r.path then (Outcome.next none, sessions)
  else if Strings.hasPrefix r.path "/api/" then (Outcome.next none, sessions)
  else
    match Session.validate sessions r.cookie now with
    | (none, ss) => (Outcome.redirectLogin, ss)
    | (some _, ss) => (Outcome.next none, ss)

/-! ## Web auth handlers (`internal/web/auth_handlers.go`,
`internal/web/apikey_handlers.go`) -/

/-- The data rendered into `login.html` by the login handlers. -/
structure LoginData where
  message : String
  error : String
  hasPasskeys : Bool
  deriving DecidableEq, Repr

/-- The fixed enumeration-safe success message of `handleLoginSubmit`. -/
def successMsg : String :=
  "If that email is registered, a login link has been sent. Check your inbox."

/-- `authHandlers.handleLoginSubmit` (`auth_handlers.go:34`): lowers and trims
the submitted email; an empty value renders an error; otherwise the same
success message is rendered unconditionally, and a token row is inserted only
when `IsAuthorized` holds. `hp` models `h.hasPasskeys()` and `newTok` the
generated random token; mail delivery has no effect on the response. -/
def handleLoginSubmit (admin : String) (table : List String)
    (tokens : List Token.Row) (hp : Bool) (formEmail newTok : String)
    (now : Int) : LoginData × List Token.Row :=
  let email := Strings.trimSpace (Strings.toLower formEmail)
  if email == "" then
    ({ message := "", error := "Email is required", hasPasskeys := hp }, tokens)
  else if Users.isAuthorized admin table email then
    ({ message := successMsg, error := "", hasPasskeys := hp },
     Token.create tokens email newTok now)
  else
    ({ message := successMsg, error := "", hasPasskeys := hp }, tokens)

/-- `apikeyHandlers.handleCreateKey` (`apikey_handlers.go:33`): defaults a
blank name, validates the session and uses the empty owner when it fails
("key will have no owner if session is missing"), then calls
`APIKeyStore.Create`. Returns the stored record and the new table. -/
def handleCreateKey (hash : String → String) (sessions : List Session.Row)
    (keys : List APIKey.Row) (cookie : Option String) (now : Int)
    (name raw : String) (newId : Int) : APIKey.Row × List APIKey.Row :=
  let name1 := Strings.trimSpace name
  let name2 := if name1 == "" then "API Key" else name1
  let email := ((Session.validate sessions cookie now).1).getD ""
  APIKey.create hash keys name2 email raw newId

/-- The condition under which `RequireAPIKey` records a rate-limiter failure:
a bearer-protected API path, a `Bearer` header present, the source not yet
limited, and the presented key failing `APIKeyStore.Validate`. -/
def bearerFailCond (hash : String → String) (st : St) (r : Request)
    (now : Int) : Prop :=
  Strings.hasPrefix r.path "/api/" = true ∧
  isAPIKeyManagementPath r.path = false ∧
  (r.authz == "" || !(Strings.hasPrefix r.authz "Bearer ")) = false ∧
  (isLimited (st.limiter r.remoteAddr) now).1 = false ∧
  (APIKey.validate hash st.apiKeys (Strings.trimPrefix r.authz "Bearer ") now).1 = ""

instance (hash : String → String) (st : St) (r : Request) (now : Int) :
    Decidable (bearerFailCond hash st r now) := by
  unfold bearerFailCond
  infer_instance

/-- A concrete stand-in for the SHA-256 hex digest, used to instantiate the
hash-function parameter in witnesses. -/
def hashW (s : String) : String :=
  String.append "sha256:" s

/-! ## Theorems -/

/-- Rows rewritten by the conditional update keep their token and email. -/
theorem Token.updRow_preserve (tok : String) (now : Int) (r : Token.Row) :
    ((if Token.updMatch tok now r then { r with used := true } else r) : Token.Row).token
        = r.token ∧
    ((if Token.updMatch tok now r then { r with used := true } else r) : Token.Row).email
        = r.email := by
  by_cases hm : Token.updMatch tok now r = true
  · simp [hm]
  · rw [Bool.not_eq_true] at hm
    simp [hm]

/-- After the conditional update has run at time `t1`, no row of the table
can match the update condition again at any later time `t2`. -/
theorem Token.markUsed_no_rematch {db : List Token.Row} {tok : String}
    {t1 t2 : Int} (hle : t1 ≤ t2) :
    ∀ x ∈ Token.markUsed db tok t1, ¬ (Token.updMatch tok t2 x = true) := by
  intro x hx hc
  simp only [Token.markUsed, List.mem_map] at hx
  obtain ⟨r, hr, rfl⟩ := hx
  by_cases hm : Token.updMatch tok t1 r = true
  · rw [if_pos hm] at hc
    simp [Token.updMatch] at hc
  · rw [Bool.not_eq_true] at hm
    rw [if_neg (by simp [hm])] at hc
    simp only [Token.updMatch, Bool.and_eq_true, beq_iff_eq,
      decide_eq_true_eq] at hc
    have hmt : Token.updMatch tok t1 r = true := by
      simp only [Token.updMatch, Bool.and_eq_true, beq_iff_eq,
        decide_eq_true_eq]
      exact ⟨⟨hc.1.1, hc.1.2⟩, lt_of_le_of_lt hle hc.2⟩
    rw [hm] at hmt
    exact Bool.false_ne_true hmt

/-- C1. `TokenStore.Validate` succeeds at most once per token: a successful
validation at time `t1` returns an email bound to that token in the table and
marks it used through the single conditional update, so any later validation
of the same token fails; and when every row bearing the token has expired,
validation fails even if the token was never used. -/
theorem token_validate_single_use (db : List Token.Row) (tok : String)
    (t1 t2 : Int) (hle : t1 ≤ t2) :
    (∀ e db1, Token.validate db tok t1 = (some e, db1) →
      (Token.validate db1 tok t2).1 = none ∧
      ∃ r ∈ db, r.token = tok ∧ r.email = e) ∧
    ((∀ r ∈ db, r.token = tok → r.expiresAt ≤ t1) →
      (Token.validate db tok t1).1 = none) := by
  constructor
  · intro e db1 hval
    unfold Token.validate at hval
    split at hval
    · simp at hval
    · split at hval
      next r hfind =>
        simp only [Prod.mk.injEq, Option.some.injEq] at hval
        obtain ⟨he, hdb⟩ := hval
        subst hdb
        constructor
        · have hz : (Token.markUsed db tok t1).countP (Token.updMatch tok t2) = 0 :=
            List.countP_eq_zero.mpr (Token.markUsed_no_rematch hle)
          unfold Token.validate
          rw [if_pos hz]
        · have hmem := List.mem_of_find?_eq_some hfind
          have hpred := List.find?_some hfind
          simp only [Token.markUsed, List.mem_map] at hmem
          obtain ⟨r0, hr0, hfr⟩ := hmem
          have hp := Token.updRow_preserve tok t1 r0
          rw [hfr] at hp
          refine ⟨r0, hr0, ?_, ?_⟩
          · rw [← hp.1]
            exact eq_of_beq hpred
          · rw [← hp.2]
            exact he
      next hfind =>
        simp at hval
  · intro hexp
    have hz : db.countP (Token.updMatch tok t1) = 0 := by
      rw [List.countP_eq_zero]
      intro r hr hc
      simp only [Token.updMatch, Bool.and_eq_true, beq_iff_eq,
        decide_eq_true_eq] at hc
      exact absurd hc.2 (not_lt.mpr (hexp r hr hc.1.1))
    unfold Token.validate
    rw [if_pos hz]

/-- Witness for C1 at a concrete single-row table: the token validates once at
time 5 and the repeat validation at time 6 fails; a fully expired table also
rejects the unused token. -/
theorem token_validate_single_use_witness :
    (Token.validate [{ token := "t1", email := "alice@example.com", expiresAt := 100, used := true }] "t1" 6).1 = none ∧
    (Token.validate [{ token := "t2", email := "bob@example.com", expiresAt := 4, used := false }] "t2" 5).1 = none := by
  constructor
  · have h := (token_validate_single_use
      [{ token := "t1", email := "alice@example.com", expiresAt := 100, used := false }] "t1" 5 6
      (by decide)).1 "alice@example.com"
      [{ token := "t1", email := "alice@example.com", expiresAt := 100, used := true }] (by decide)
    exact h.1
  · exact (token_validate_single_use
      [{ token := "t2", email := "bob@example.com", expiresAt := 4, used := false }] "t2" 5 5
      (by decide)).2 (by decide)

/-- C8. The legacy `rateLimiter.recordFailure` (`middleware.go:51`) appends
the current timestamp after pruning entries older than the 1-minute window
and reports limited exactly when the post-append count exceeds the threshold
10; in particular the 11th in-window failure reports `true`, and a failure
recorded after the window has elapsed for all prior entries reports
`false`. -/
theorem legacy_recordFailure_window (attempts : List Int) (now : Int) :
    (Legacy.recordFailure attempts now).2
        = (attempts.filter (fun t => decide (now - rateLimitWindow < t))) ++ [now] ∧
    ((Legacy.recordFailure attempts now).1 = true ↔
        rateLimitMaxFail < (Legacy.recordFailure attempts now).2.length) ∧
    (attempts.length = rateLimitMaxFail →
      (∀ t ∈ attempts, now - rateLimitWindow < t) →
      (Legacy.recordFailure attempts now).1 = true) ∧
    ((∀ t ∈ attempts, t ≤ now - rateLimitWindow) →
      (Legacy.recordFailure attempts now).1 = false) := by
  refine ⟨rfl, ?_, ?_, ?_⟩
  · simp [Legacy.recordFailure]
  · intro hlen hin
    have hf : attempts.filter (fun t => decide (now - rateLimitWindow < t)) = attempts :=
      List.filter_eq_self.mpr (fun t ht => by simpa using hin t ht)
    simp [Legacy.recordFailure, hf, hlen, rateLimitMaxFail]
  · intro hout
    have hf : attempts.filter (fun t => decide (now - rateLimitWindow < t)) = [] :=
      List.filter_eq_nil_iff.mpr (fun t ht => by simpa using not_lt.mpr (hout t ht))
    simp [Legacy.recordFailure, hf, rateLimitMaxFail]

/-- Witness for C8: ten prior in-window failures make the 11th report
limited; two failures a windowful in the past do not. -/
theorem legacy_recordFailure_window_witness :
    (Legacy.recordFailure [1, 2, 3, 4, 5, 6, 7, 8, 9, 10] 30).1 = true ∧
    (Legacy.recordFailure [1, 2] 100).1 = false := by
  constructor
  · exact (legacy_recordFailure_window [1, 2, 3, 4, 5, 6, 7, 8, 9, 10] 30).2.2.1
      (by decide) (by decide)
  · exact (legacy_recordFailure_window [1, 2] 100).2.2.2 (by decide)

/-- C5. `APIKeyStore.Create` persists exactly the name, the first-8-character
display prefix, the hash of the raw key and the owner — never the raw key —
and `Validate` succeeds exactly when the presented string's hash equals a
stored `key_hash`: with a single stored key, the creation-time raw string
validates to the owner, and any presented string whose hash differs fails. -/
theorem apikey_hash_only (hash : String → String) (db : List APIKey.Row)
    (name owner raw : String) (newId : Int) :
    ((APIKey.create hash db name owner raw newId).2
        = db ++ [{ id := newId, name := name, keyPrefix := Strings.take raw 8, keyHash := hash raw, email := owner, lastUsedAt := none }]) ∧
    (∀ (db2 : List APIKey.Row) (presented : String) (now : Int),
      ((∃ r ∈ db2, r.keyHash = hash presented) →
        ∃ r ∈ db2, r.keyHash = hash presented ∧
          (APIKey.validate hash db2 presented now).1 = r.email) ∧
      ((∀ r ∈ db2, r.keyHash ≠ hash presented) →
        APIKey.validate hash db2 presented now = ("", db2))) ∧
    (∀ (presented : String) (now : Int), hash presented ≠ hash raw →
      (APIKey.validate hash [(APIKey.create hash db name owner raw newId).1] presented now).1 = "") ∧
    (∀ now : Int,
      (APIKey.validate hash [(APIKey.create hash db name owner raw newId).1] raw now).1 = owner) := by
  refine ⟨rfl, ?_, ?_, ?_⟩
  · intro db2 presented now
    constructor
    · intro hex
      cases hfind : db2.find? (fun r => r.keyHash == hash presented) with
      | none =>
        obtain ⟨r, hr, hh⟩ := hex
        have := List.find?_eq_none.mp hfind r hr
        exact absurd (beq_iff_eq.mpr hh) this
      | some r =>
        have hp := List.find?_some hfind
        refine ⟨r, List.mem_of_find?_eq_some hfind, eq_of_beq hp, ?_⟩
        simp [APIKey.validate, hfind]
    · intro hall
      have hfind : db2.find? (fun r => r.keyHash == hash presented) = none :=
        List.find?_eq_none.mpr (fun r hr => by
          simpa using hall r hr)
      simp [APIKey.validate, hfind]
  · intro presented now hne
    have hb : ((hash raw : String) == hash presented) = false :=
      beq_eq_false_iff_ne.mpr (Ne.symm hne)
    simp [APIKey.validate, APIKey.create, List.find?, hb]
  · intro now
    simp [APIKey.validate, APIKey.create, List.find?]

/-- Witness for C5: a key created for bob validates only for its exact raw
string; a one-character mutation fails. -/
theorem apikey_hash_only_witness :
    (APIKey.validate hashW [(APIKey.create hashW [] "CLI" "bob@example.com" "hf_abc123" 1).1] "hf_abc124" 9).1 = "" ∧
    (APIKey.validate hashW [(APIKey.create hashW [] "CLI" "bob@example.com" "hf_abc123" 1).1] "hf_abc123" 9).1 = "bob@example.com" := by
  constructor
  · exact (apikey_hash_only hashW [] "CLI" "bob@example.com" "hf_abc123" 1).2.2.1
      "hf_abc124" 9 (by decide)
  · exact (apikey_hash_only hashW [] "CLI" "bob@example.com" "hf_abc123" 1).2.2.2 9

/-- C6. API-key listing and deletion are owner-scoped (modelled from the
spec, see `APIKey.delete`): deletion removes a key only when both the id and
the requesting owner's address match; any deletion attempt by a non-owner
fails with `NotFound`; listing returns only the owner's keys. -/
theorem apikey_delete_owner_scoped (db : List APIKey.Row) (id : Int)
    (requester : String) :
    ((∀ r ∈ db, r.id = id → r.email ≠ requester) →
        APIKey.delete db id requester = Except.error APIKey.DeleteError.notFound) ∧
    (∀ db2, APIKey.delete db id requester = Except.ok db2 →
        (∃ r ∈ db, r.id = id ∧ r.email = requester) ∧
        ∀ r ∈ db, (r ∈ db2 ↔ ¬(r.id = id ∧ r.email = requester))) ∧
    (∀ r ∈ APIKey.list db requester, r.email = requester ∧ r ∈ db) := by
  refine ⟨?_, ?_, ?_⟩
  · intro hno
    have hany : db.any (fun r => r.id == id && r.email == requester) = false := by
      rw [List.any_eq_false]
      intro r hr
      simp only [Bool.and_eq_true, beq_iff_eq, not_and]
      intro h1
      exact fun h2 => hno r hr h1 h2
    simp [APIKey.delete, hany]
  · intro db2 hok
    unfold APIKey.delete at hok
    split at hok
    next hany =>
      simp only [Except.ok.injEq] at hok
      subst hok
      constructor
      · obtain ⟨r, hr, hp⟩ := List.any_eq_true.mp hany
        simp only [Bool.and_eq_true, beq_iff_eq] at hp
        exact ⟨r, hr, hp⟩
      · intro r hr
        constructor
        · intro hmem
          have := (List.mem_filter.mp hmem).2
          simp only [Bool.not_eq_true', Bool.and_eq_false_iff, beq_eq_false_iff_ne] at this
          rcases this with h | h
          · exact fun hc => h hc.1
          · exact fun hc => h hc.2
        · intro hnot
          refine List.mem_filter.mpr ⟨hr, ?_⟩
          simp only [Bool.not_eq_true', Bool.and_eq_false_iff, beq_eq_false_iff_ne]
          by_cases h1 : r.id = id
          · exact Or.inr (fun h2 => hnot ⟨h1, h2⟩)
          · exact Or.inl h1
    next => exact absurd hok (by simp)
  · intro r hr
    have := List.mem_filter.mp hr
    exact ⟨eq_of_beq this.2, this.1⟩

/-- Witness for C6: mallory cannot delete bob's key — the attempt fails with
`NotFound`. -/
theorem apikey_delete_owner_scoped_witness :
    APIKey.delete [{ id := 1, name := "CLI", keyPrefix := "hf_abc12", keyHash := "h1", email := "bob@example.com", lastUsedAt := none }] 1 "mallory@example.com"
      = Except.error APIKey.DeleteError.notFound := by
  exact (apikey_delete_owner_scoped
    [{ id := 1, name := "CLI", keyPrefix := "hf_abc12", keyHash := "h1", email := "bob@example.com", lastUsedAt := none }]
    1 "mallory@example.com").1 (by decide)

/-- C3. For every non-empty submitted address, `handleLoginSubmit` renders
the identical success response whatever the user directory says — a two-run
equality over arbitrary directories — and a token row is created if and only
if `IsAuthorized` holds for the processed address. -/
theorem loginSubmit_enumeration_safe (admin1 admin2 : String)
    (table1 table2 : List String) (tokens : List Token.Row) (hp : Bool)
    (formEmail newTok : String) (now : Int)
    (hne : Strings.trimSpace (Strings.toLower formEmail) ≠ "") :
    ((handleLoginSubmit admin1 table1 tokens hp formEmail newTok now).1
        = (handleLoginSubmit admin2 table2 tokens hp formEmail newTok now).1) ∧
    ((handleLoginSubmit admin1 table1 tokens hp formEmail newTok now).1
        = { message := successMsg, error := "", hasPasskeys := hp }) ∧
    ((handleLoginSubmit admin1 table1 tokens hp formEmail newTok now).2
        = if Users.isAuthorized admin1 table1 (Strings.trimSpace (Strings.toLower formEmail))
          then Token.create tokens (Strings.trimSpace (Strings.toLower formEmail)) newTok now
          else tokens) ∧
    (Token.create tokens (Strings.trimSpace (Strings.toLower formEmail)) newTok now ≠ tokens) := by
  have hb : (Strings.trimSpace (Strings.toLower formEmail) == "") = false :=
    beq_eq_false_iff_ne.mpr hne
  refine ⟨?_, ?_, ?_, ?_⟩
  · rcases Bool.eq_false_or_eq_true
        (Users.isAuthorized admin1 table1 (Strings.trimSpace (Strings.toLower formEmail))) with h1 | h1 <;>
      rcases Bool.eq_false_or_eq_true
        (Users.isAuthorized admin2 table2 (Strings.trimSpace (Strings.toLower formEmail))) with h2 | h2 <;>
      simp [handleLoginSubmit, hb, h1, h2]
  · rcases Bool.eq_false_or_eq_true
        (Users.isAuthorized admin1 table1 (Strings.trimSpace (Strings.toLower formEmail))) with h1 | h1 <;>
      simp [handleLoginSubmit, hb, h1]
  · rcases Bool.eq_false_or_eq_true
        (Users.isAuthorized admin1 table1 (Strings.trimSpace (Strings.toLower formEmail))) with h1 | h1 <;>
      simp [handleLoginSubmit, hb, h1]
  · intro hc
    have := congrArg List.length hc
    simp [Token.create] at this

/-- Witness for C3: alice's submission renders the same success message
whether the directory authorizes her or not, and in the unauthorized run no
token row is created. -/
theorem loginSubmit_enumeration_safe_witness :
    ((handleLoginSubmit "admin@x.com" [] [] false "  Alice@Example.com " "tok1" 0).1
      = (handleLoginSubmit "x@y.z" ["alice@example.com"] [] false "  Alice@Example.com " "tok1" 0).1) ∧
    ((handleLoginSubmit "admin@x.com" [] [] false "  Alice@Example.com " "tok1" 0).2 = []) := by
  constructor
  · exact (loginSubmit_enumeration_safe "admin@x.com" "x@y.z" [] ["alice@example.com"] [] false
      "  Alice@Example.com " "tok1" 0 (by decide)).1
  · have h := (loginSubmit_enumeration_safe "admin@x.com" "x@y.z" [] ["alice@example.com"] [] false
      "  Alice@Example.com " "tok1" 0 (by decide)).2.2.1
    rw [h]
    simp [show Users.isAuthorized "admin@x.com" []
      (Strings.trimSpace (Strings.toLower "  Alice@Example.com ")) = false from by decide]

/-- Prefix tests compose: a prefix of a prefix is a prefix. -/
theorem Strings.hasPrefix_trans {s p q : String}
    (h1 : Strings.hasPrefix s p = true) (h2 : Strings.hasPrefix p q = true) :
    Strings.hasPrefix s q = true := by
  simp only [Strings.hasPrefix, List.isPrefixOf_iff_prefix] at h1 h2 ⊢
  exact h2.trans h1

/-- Appending after a string leaves it as a prefix. -/
theorem Strings.hasPrefix_append (p s : String) :
    Strings.hasPrefix (p ++ s) p = true := by
  simp only [Strings.hasPrefix, List.isPrefixOf_iff_prefix]
  show p.data <+: (p ++ s).data
  rw [String.data_append]
  exact List.prefix_append _ _

/-- `TrimPrefix` inverts appending a prefix. -/
theorem Strings.trimPrefix_append (p s : String) :
    Strings.trimPrefix (p ++ s) p = s := by
  unfold Strings.trimPrefix
  rw [if_pos (Strings.hasPrefix_append p s)]
  show String.mk (((p ++ s).data).drop p.data.length) = s
  rw [String.data_append, List.drop_left]

/-- Management paths are `/api/` paths. -/
theorem mgmt_is_api {p : String} (h : isAPIKeyManagementPath p = true) :
    Strings.hasPrefix p "/api/" = true := by
  simp only [isAPIKeyManagementPath, Bool.or_eq_true, beq_iff_eq] at h
  rcases h with ((h | h) | h) | h
  · subst h; decide
  · exact Strings.hasPrefix_trans h (by decide)
  · subst h; decide
  · exact Strings.hasPrefix_trans h (by decide)

/-- A header carrying a `Bearer ` prefix is not the absent (empty) header. -/
theorem bearer_authz_ne_empty {a : String}
    (h : Strings.hasPrefix a "Bearer " = true) : (a == "") = false := by
  by_cases he : a = ""
  · subst he
    exact absurd h (by decide)
  · exact beq_eq_false_iff_ne.mpr he

/-- C2. On API-key and user management paths, `RequireAPIKey` admits a
request exactly when the session cookie validates; a missing/invalid session
yields 401 Unauthorized, and the outcome is independent of the
`Authorization` header, the key store, the hash and the limiter — bearer
keys are never accepted on management paths. -/
theorem mgmt_requires_session (hash : String → String) (st : St) (r : Request)
    (now : Int) (hm : isAPIKeyManagementPath r.path = true) :
    ((Session.validate st.sessions r.cookie now).1 = none →
        (RequireAPIKey hash st r now).1 = Outcome.unauthorized) ∧
    (∀ e, (Session.validate st.sessions r.cookie now).1 = some e →
        (RequireAPIKey hash st r now).1 = Outcome.next none) ∧
    (∀ (hash2 : String → String) (authz2 : String) (keys2 : List APIKey.Row)
        (lim2 : String → List Int),
      (RequireAPIKey hash2 { sessions := st.sessions, apiKeys := keys2, limiter := lim2 } { r with authz := authz2 } now).1
        = (RequireAPIKey hash st r now).1) := by
  have hapi := mgmt_is_api hm
  refine ⟨?_, ?_, ?_⟩
  · intro h
    rcases hsv : Session.validate st.sessions r.cookie now with ⟨o, ss⟩
    rw [hsv] at h
    simp only at h
    subst h
    simp [RequireAPIKey, hapi, hm, hsv]
  · intro e h
    rcases hsv : Session.validate st.sessions r.cookie now with ⟨o, ss⟩
    rw [hsv] at h
    simp only at h
    subst h
    simp [RequireAPIKey, hapi, hm, hsv]
  · intro hash2 authz2 keys2 lim2
    rcases hsv : Session.validate st.sessions r.cookie now with ⟨o, ss⟩
    cases o <;> simp [RequireAPIKey, hapi, hm, hsv]

/-- Witness for C2: with no valid session, a management-path request carrying
a bearer header is rejected 401. -/
theorem mgmt_requires_session_witness :
    (RequireAPIKey hashW { sessions := [], apiKeys := [], limiter := fun _ => [] } { path := "/api/keys", authz := "Bearer hf_valid", cookie := none, remoteAddr := "ip" } 0).1
      = Outcome.unauthorized := by
  exact (mgmt_requires_session hashW
    { sessions := [], apiKeys := [], limiter := fun _ => [] }
    { path := "/api/keys", authz := "Bearer hf_valid", cookie := none, remoteAddr := "ip" }
    0 (by decide)).1 (by decide)

/-- C4. On bearer-protected API paths: with no `Bearer` header a valid
session forwards the request (session fallback) and the absence of both
yields 401 Unauthorized; with a `Bearer` header from a rate-limited source
the response is 429 TooManyRequests and the key store is neither consulted
nor modified. -/
theorem bearer_fallback_and_ratelimit (hash : String → String) (st : St)
    (r : Request) (now : Int)
    (hapi : Strings.hasPrefix r.path "/api/" = true)
    (hm : isAPIKeyManagementPath r.path = false) :
    ((r.authz == "" || !(Strings.hasPrefix r.authz "Bearer ")) = true →
      (∀ e, (Session.validate st.sessions r.cookie now).1 = some e →
          (RequireAPIKey hash st r now).1 = Outcome.next (some e)) ∧
      ((Session.validate st.sessions r.cookie now).1 = none →
          (RequireAPIKey hash st r now).1 = Outcome.unauthorized)) ∧
    (Strings.hasPrefix r.authz "Bearer " = true →
      (isLimited (st.limiter r.remoteAddr) now).1 = true →
      (RequireAPIKey hash st r now).1 = Outcome.tooManyRequests ∧
      (RequireAPIKey hash st r now).2.apiKeys = st.apiKeys ∧
      (∀ (hash2 : String → String) (keys2 : List APIKey.Row),
        (RequireAPIKey hash2 { st with apiKeys := keys2 } r now).1
          = Outcome.tooManyRequests)) := by
  constructor
  · intro hhd
    constructor
    · intro e h
      rcases hsv : Session.validate st.sessions r.cookie now with ⟨o, ss⟩
      rw [hsv] at h
      simp only at h
      subst h
      simp [RequireAPIKey, hapi, hm, hhd, hsv]
    · intro h
      rcases hsv : Session.validate st.sessions r.cookie now with ⟨o, ss⟩
      rw [hsv] at h
      simp only at h
      subst h
      simp [RequireAPIKey, hapi, hm, hhd, hsv]
  · intro hb hlim
    have hne := bearer_authz_ne_empty hb
    refine ⟨?_, ?_, ?_⟩
    · simp [RequireAPIKey, hapi, hm, hne, hb, hlim]
    · simp [RequireAPIKey, hapi, hm, hne, hb, hlim]
    · intro hash2 keys2
      simp [RequireAPIKey, hapi, hm, hne, hb, hlim]

/-- Witness for C4: a cookie-only request to a resource API path passes via
session fallback; a bare request is 401; a rate-limited source gets 429 with
the key store untouched. -/
theorem bearer_fallback_and_ratelimit_witness :
    (RequireAPIKey hashW { sessions := [{ id := "s1", email := "alice@example.com", expiresAt := 100 }], apiKeys := [], limiter := fun _ => [] } { path := "/api/properties", authz := "", cookie := some "s1", remoteAddr := "ip" } 5).1
      = Outcome.next (some "alice@example.com") ∧
    (RequireAPIKey hashW { sessions := [], apiKeys := [], limiter := fun _ => [] } { path := "/api/properties", authz := "", cookie := none, remoteAddr := "ip" } 5).1
      = Outcome.unauthorized ∧
    (RequireAPIKey hashW { sessions := [], apiKeys := [], limiter := fun _ => [1, 2, 3, 4, 5, 6, 7, 8, 9, 10] } { path := "/api/properties", authz := "Bearer hf_k", cookie := none, remoteAddr := "ip" } 5).1
      = Outcome.tooManyRequests := by
  refine ⟨?_, ?_, ?_⟩
  · exact ((bearer_fallback_and_ratelimit hashW
      { sessions := [{ id := "s1", email := "alice@example.com", expiresAt := 100 }], apiKeys := [], limiter := fun _ => [] }
      { path := "/api/properties", authz := "", cookie := some "s1", remoteAddr := "ip" }
      5 (by decide) (by decide)).1 (by decide)).1 "alice@example.com" (by decide)
  · exact ((bearer_fallback_and_ratelimit hashW
      { sessions := [], apiKeys := [], limiter := fun _ => [] }
      { path := "/api/properties", authz := "", cookie := none, remoteAddr := "ip" }
      5 (by decide) (by decide)).1 (by decide)).2 (by decide)
  · exact ((bearer_fallback_and_ratelimit hashW
      { sessions := [], apiKeys := [], limiter := fun _ => [1, 2, 3, 4, 5, 6, 7, 8, 9, 10] }
      { path := "/api/properties", authz := "Bearer hf_k", cookie := none, remoteAddr := "ip" }
      5 (by decide) (by decide)).2 (by decide) (by decide)).1

/-- C7. Across any request, the rate limiter's per-source state gains an
entry only when a presented bearer key fails validation (`bearerFailCond`):
for every source, the post-request list is a sublist of the prior one (the
pruning done by `isLimited`), extended by the current timestamp exactly when
this request was a failed bearer validation from that source. Successful
bearer validations and session validations never add entries. -/
theorem limiter_entries_only_on_bearer_failure (hash : String → String)
    (st : St) (r : Request) (now : Int) (src : String) :
    ∃ kept : List Int, kept.Sublist (st.limiter src) ∧
      (RequireAPIKey hash st r now).2.limiter src
        = kept ++ (if src = r.remoteAddr ∧ bearerFailCond hash st r now then [now] else []) := by
  cases hapi : Strings.hasPrefix r.path "/api/" with
  | false =>
    refine ⟨st.limiter src, List.Sublist.refl _, ?_⟩
    rw [if_neg (by rintro ⟨-, hfc⟩; have := hfc.1; rw [hapi] at this; exact absurd this (by decide))]
    rw [List.append_nil]
    simp [RequireAPIKey, hapi]
  | true =>
    cases hm : isAPIKeyManagementPath r.path with
    | true =>
      refine ⟨st.limiter src, List.Sublist.refl _, ?_⟩
      rw [if_neg (by rintro ⟨-, hfc⟩; have := hfc.2.1; rw [hm] at this; exact absurd this (by decide))]
      rw [List.append_nil]
      rcases hsv : Session.validate st.sessions r.cookie now with ⟨o, ss⟩
      cases o <;> simp [RequireAPIKey, hapi, hm, hsv]
    | false =>
      cases hhd : (r.authz == "" || !(Strings.hasPrefix r.authz "Bearer ")) with
      | true =>
        refine ⟨st.limiter src, List.Sublist.refl _, ?_⟩
        rw [if_neg (by rintro ⟨-, hfc⟩; have := hfc.2.2.1; rw [hhd] at this; exact absurd this (by decide))]
        rw [List.append_nil]
        rcases hsv : Session.validate st.sessions r.cookie now with ⟨o, ss⟩
        cases o <;> simp [RequireAPIKey, hapi, hm, hhd, hsv]
      | false =>
        cases hlim : (isLimited (st.limiter r.remoteAddr) now).1 with
        | true =>
          by_cases hsrc : src = r.remoteAddr
          · refine ⟨(isLimited (st.limiter r.remoteAddr) now).2, ?_, ?_⟩
            · rw [hsrc]
              simp only [isLimited]
              exact List.filter_sublist _
            · rw [if_neg (by rintro ⟨-, hfc⟩; have := hfc.2.2.2.1; rw [hlim] at this; exact absurd this (by decide))]
              rw [List.append_nil]
              simp [RequireAPIKey, hapi, hm, hhd, hlim, setLimiter, hsrc]
          · refine ⟨st.limiter src, List.Sublist.refl _, ?_⟩
            rw [if_neg (by rintro ⟨hs, -⟩; exact hsrc hs)]
            rw [List.append_nil]
            simp [RequireAPIKey, hapi, hm, hhd, hlim, setLimiter,
              beq_eq_false_iff_ne.mpr hsrc]
        | false =>
          cases hev : (APIKey.validate hash st.apiKeys (Strings.trimPrefix r.authz "Bearer ") now).1 == "" with
          | true =>
            have hev' := eq_of_beq hev
            by_cases hsrc : src = r.remoteAddr
            · refine ⟨(isLimited (st.limiter r.remoteAddr) now).2, ?_, ?_⟩
              · rw [hsrc]
                simp only [isLimited]
                exact List.filter_sublist _
              · rw [if_pos ⟨hsrc, hapi, hm, hhd, hlim, hev'⟩]
                simp [RequireAPIKey, hapi, hm, hhd, hlim, hev, setLimiter,
                  recordFailure, hsrc]
            · refine ⟨st.limiter src, List.Sublist.refl _, ?_⟩
              rw [if_neg (by rintro ⟨hs, -⟩; exact hsrc hs)]
              rw [List.append_nil]
              simp [RequireAPIKey, hapi, hm, hhd, hlim, hev, setLimiter,
                recordFailure, beq_eq_false_iff_ne.mpr hsrc]
          | false =>
            have hcond : ¬(src = r.remoteAddr ∧ bearerFailCond hash st r now) := by
              rintro ⟨-, hfc⟩
              exact (ne_of_beq_false hev) hfc.2.2.2.2
            by_cases hsrc : src = r.remoteAddr
            · refine ⟨(isLimited (st.limiter r.remoteAddr) now).2, ?_, ?_⟩
              · rw [hsrc]
                simp only [isLimited]
                exact List.filter_sublist _
              · rw [if_neg hcond, List.append_nil]
                simp [RequireAPIKey, hapi, hm, hhd, hlim, hev, setLimiter, hsrc]
            · refine ⟨st.limiter src, List.Sublist.refl _, ?_⟩
              rw [if_neg hcond, List.append_nil]
              simp [RequireAPIKey, hapi, hm, hhd, hlim, hev, setLimiter,
                beq_eq_false_iff_ne.mpr hsrc]

/-- Counterexample to C9: a management-path request admitted after a
successful session validation is forwarded with no email attached to the
context — `UserEmailFromContext` yields `""`, not the validated address. -/
theorem attach_on_admit_counterexample :
    (Session.validate [{ id := "s1", email := "alice@example.com", expiresAt := 100 }] (some "s1") 5).1 = some "alice@example.com" ∧
    (RequireAPIKey hashW { sessions := [{ id := "s1", email := "alice@example.com", expiresAt := 100 }], apiKeys := [], limiter := fun _ => [] } { path := "/api/keys", authz := "", cookie := some "s1", remoteAddr := "ip" } 5).1
      = Outcome.next none ∧
    UserEmailFromContext none ≠ "alice@example.com" := by
  refine ⟨by decide, by decide, by decide⟩

/-- C9 as amended: the validated address is attached to the context on
successful bearer-key validation and on the session fallback of
bearer-protected API paths; management-path requests and non-API page
requests (`RequireAuth`) are forwarded after a successful session validation
with nothing attached. -/
theorem attach_on_admit_amended (hash : String → String) (st : St)
    (r : Request) (now : Int) :
    (Strings.hasPrefix r.path "/api/" = true →
      isAPIKeyManagementPath r.path = false →
      Strings.hasPrefix r.authz "Bearer " = true →
      (isLimited (st.limiter r.remoteAddr) now).1 = false →
      (APIKey.validate hash st.apiKeys (Strings.trimPrefix r.authz "Bearer ") now).1 ≠ "" →
      (RequireAPIKey hash st r now).1
        = Outcome.next (some (APIKey.validate hash st.apiKeys (Strings.trimPrefix r.authz "Bearer ") now).1)) ∧
    (Strings.hasPrefix r.path "/api/" = true →
      isAPIKeyManagementPath r.path = false →
      (r.authz == "" || !(Strings.hasPrefix r.authz "Bearer ")) = true →
      ∀ e, (Session.validate st.sessions r.cookie now).1 = some e →
        (RequireAPIKey hash st r now).1 = Outcome.next (some e)) ∧
    (isAPIKeyManagementPath r.path = true →
      ∀ e, (Session.validate st.sessions r.cookie now).1 = some e →
        (RequireAPIKey hash st r now).1 = Outcome.next none) ∧
    (isPublicPath r.path = false → Strings.hasPrefix r.path "/api/" = false →
      ∀ e, (Session.validate st.sessions r.cookie now).1 = some e →
        (RequireAuth st.sessions r now).1 = Outcome.next none) := by
  refine ⟨?_, ?_, ?_, ?_⟩
  · intro hapi hm hb hlim hval
    simp [RequireAPIKey, hapi, hm, bearer_authz_ne_empty hb, hb, hlim,
      beq_eq_false_iff_ne.mpr hval]
  · intro hapi hm hhd e h
    rcases hsv : Session.validate st.sessions r.cookie now with ⟨o, ss⟩
    rw [hsv] at h
    simp only at h
    subst h
    simp [RequireAPIKey, hapi, hm, hhd, hsv]
  · intro hm e h
    have hapi := mgmt_is_api hm
    rcases hsv : Session.validate st.sessions r.cookie now with ⟨o, ss⟩
    rw [hsv] at h
    simp only at h
    subst h
    simp [RequireAPIKey, hapi, hm, hsv]
  · intro hpub hapi e h
    rcases hsv : Session.validate st.sessions r.cookie now with ⟨o, ss⟩
    rw [hsv] at h
    simp only at h
    subst h
    simp [RequireAuth, hpub, hapi, hsv]

/-- Witness for the amended C9: a valid bearer request gets bob's address
attached; an admitted management request gets nothing attached. -/
theorem attach_on_admit_amended_witness :
    (RequireAPIKey hashW { sessions := [], apiKeys := [{ id := 1, name := "k", keyPrefix := "hf_k", keyHash := "sha256:hf_k", email := "bob@example.com", lastUsedAt := none }], limiter := fun _ => [] } { path := "/api/properties", authz := "Bearer hf_k", cookie := none, remoteAddr := "ip" } 5).1
      = Outcome.next (some "bob@example.com") ∧
    (RequireAPIKey hashW { sessions := [{ id := "s1", email := "alice@example.com", expiresAt := 100 }], apiKeys := [], limiter := fun _ => [] } { path := "/api/keys", authz := "", cookie := some "s1", remoteAddr := "ip" } 5).1
      = Outcome.next none := by
  constructor
  · have h := (attach_on_admit_amended hashW
      { sessions := [], apiKeys := [{ id := 1, name := "k", keyPrefix := "hf_k", keyHash := "sha256:hf_k", email := "bob@example.com", lastUsedAt := none }], limiter := fun _ => [] }
      { path := "/api/properties", authz := "Bearer hf_k", cookie := none, remoteAddr := "ip" }
      5).1 (by decide) (by decide) (by decide) (by decide) (by decide)
    rw [h]
    decide
  · exact (attach_on_admit_amended hashW
      { sessions := [{ id := "s1", email := "alice@example.com", expiresAt := 100 }], apiKeys := [], limiter := fun _ => [] }
      { path := "/api/keys", authz := "", cookie := some "s1", remoteAddr := "ip" }
      5).2.2.1 (by decide) "alice@example.com" (by decide)

/-- C10. A key created without a valid session is stored with the empty
owner address; validating such a key yields the empty owner, which the
bearer middleware rejects as an invalid key with 401 Unauthorized (or 429
when the source is limited) — the key can never authenticate a request. -/
theorem empty_owner_key_rejected (hash : String → String)
    (sessions : List Session.Row) (keys : List APIKey.Row)
    (cookie : Option String) (st : St) (r : Request) (now : Int)
    (name raw : String) (newId : Int) :
    ((Session.validate sessions cookie now).1 = none →
      (handleCreateKey hash sessions keys cookie now name raw newId).1.email = "") ∧
    ((∀ x ∈ st.apiKeys, x.keyHash = hash raw → x.email = "") →
      (APIKey.validate hash st.apiKeys raw now).1 = "" ∧
      (Strings.hasPrefix r.path "/api/" = true →
        isAPIKeyManagementPath r.path = false →
        r.authz = "Bearer " ++ raw →
        ((isLimited (st.limiter r.remoteAddr) now).1 = false →
          (RequireAPIKey hash st r now).1 = Outcome.unauthorized) ∧
        (∀ ctx, (RequireAPIKey hash st r now).1 ≠ Outcome.next ctx))) := by
  constructor
  · intro hsv
    simp [handleCreateKey, APIKey.create, hsv]
  · intro hown
    have hval : (APIKey.validate hash st.apiKeys raw now).1 = "" := by
      cases hfind : st.apiKeys.find? (fun x => x.keyHash == hash raw) with
      | none => simp [APIKey.validate, hfind]
      | some x =>
        have hp := List.find?_some hfind
        have hx := List.mem_of_find?_eq_some hfind
        have : x.email = "" := hown x hx (eq_of_beq hp)
        simp [APIKey.validate, hfind, this]
    constructor
    · exact hval
    · intro hapi hm hauthz
      have hb : Strings.hasPrefix r.authz "Bearer " = true := by
        rw [hauthz]
        exact Strings.hasPrefix_append _ _
      have htrim : Strings.trimPrefix r.authz "Bearer " = raw := by
        rw [hauthz]
        exact Strings.trimPrefix_append _ _
      constructor
      · intro hlim
        simp [RequireAPIKey, hapi, hm, bearer_authz_ne_empty hb, hb, hlim,
          htrim, hval]
      · intro ctx
        cases hlim : (isLimited (st.limiter r.remoteAddr) now).1 with
        | true =>
          simp [RequireAPIKey, hapi, hm, bearer_authz_ne_empty hb, hb, hlim]
        | false =>
          simp [RequireAPIKey, hapi, hm, bearer_authz_ne_empty hb, hb, hlim,
            htrim, hval]

/-- Witness for C10: the key created with no session carries the empty
owner; a bearer request presenting it is rejected 401. -/
theorem empty_owner_key_rejected_witness :
    (handleCreateKey hashW [] [] none 0 "k" "hf_raw" 1).1.email = "" ∧
    (RequireAPIKey hashW { sessions := [], apiKeys := [(handleCreateKey hashW [] [] none 0 "k" "hf_raw" 1).1], limiter := fun _ => [] } { path := "/api/properties", authz := "Bearer " ++ "hf_raw", cookie := none, remoteAddr := "ip" } 5).1
      = Outcome.unauthorized := by
  constructor
  · exact (empty_owner_key_rejected hashW [] [] none
      { sessions := [], apiKeys := [], limiter := fun _ => [] }
      { path := "/api/properties", authz := "Bearer " ++ "hf_raw", cookie := none, remoteAddr := "ip" }
      0 "k" "hf_raw" 1).1 (by decide)
  · exact (((empty_owner_key_rejected hashW [] [] none
      { sessions := [], apiKeys := [(handleCreateKey hashW [] [] none 0 "k" "hf_raw" 1).1], limiter := fun _ => [] }
      { path := "/api/properties", authz := "Bearer " ++ "hf_raw", cookie := none, remoteAddr := "ip" }
      5 "k" "hf_raw" 1).2 (by decide)).2 (by decide) (by decide) rfl).1 (by decide)

end HouseFinder
